import Mathlib

set_option maxHeartbeats 1000000

/-!
Shallow embedding of the PR-diagnosis engine implemented in
`.codex/skills/gh-fix-ci/scripts/inspect_pr_checks.py`.

Python strings are modelled as Lean `String`, `None`-able record fields as
`Option String`.  The Python string primitives used by the script
(`lower`, `strip`, `rstrip`, slicing, `splitlines`, `split`, substring
test, `join`) are modelled structurally on the underlying character lists
so that every definition evaluates by kernel reduction.  Subprocess calls
are replaced by explicit parameters carrying the outcome the call would
produce; everything downstream of those outcomes is embedded faithfully.
-/

/-- Whether the first list is a prefix of the second (character-wise). -/
def listPrefixEq : List Char → List Char → Bool
  | [], _ => true
  | _ :: _, [] => false
  | a :: as, b :: bs => a == b && listPrefixEq as bs

/-- Whether `needle` occurs contiguously inside the second list. -/
def listContainsSeq (needle : List Char) : List Char → Bool
  | [] => needle.isEmpty
  | c :: cs => listPrefixEq needle (c :: cs) || listContainsSeq needle cs

/-- Python `needle in haystack` (contiguous substring test). -/
def containsSub (haystack needle : String) : Bool :=
  listContainsSeq needle.data haystack.data

/-- Python `str.lower()` (character-wise case folding). -/
def strToLower (s : String) : String := ⟨s.data.map Char.toLower⟩

/-- Python `str.upper()`. -/
def strToUpper (s : String) : String := ⟨s.data.map Char.toUpper⟩

/-- Python `str.strip()`: drop leading and trailing whitespace. -/
def pyStrip (s : String) : String :=
  ⟨((s.data.dropWhile Char.isWhitespace).reverse.dropWhile Char.isWhitespace).reverse⟩

/-- Python `str.rstrip()`: drop trailing whitespace. -/
def pyRstrip (s : String) : String :=
  ⟨(s.data.reverse.dropWhile Char.isWhitespace).reverse⟩

/-- Python `s[:n]` on characters, for `n ≥ 0`. -/
def strTake (s : String) (n : Nat) : String := ⟨s.data.take n⟩

/-- Python `x or ""` applied to a str-or-None value (both `None` and `""`
are falsy, and both yield `""`). -/
def optStr : Option String → String
  | none => ""
  | some s => s

/-- `normalize_field` (inspect_pr_checks.py:732): `None` becomes `""`,
anything else is stripped and lowercased. -/
def normalize_field : Option String → String
  | none => ""
  | some s => strToLower (pyStrip s)

/-- Python `a or b` where `a` is a str-or-None value: `None` and `""` are
falsy, so they fall through to `b`. -/
def pyOrStr : Option String → Option String → Option String
  | none, b => b
  | some s, b => if s = "" then b else some s

/-- `FAILURE_CONCLUSIONS` (inspect_pr_checks.py:12); the Python set is
modelled as a list, only membership is ever used. -/
def FAILURE_CONCLUSIONS : List String :=
  ["failure", "cancelled", "timed_out", "action_required"]

/-- `FAILURE_STATES` (inspect_pr_checks.py:19). -/
def FAILURE_STATES : List String :=
  ["failure", "error", "cancelled", "timed_out", "action_required"]

/-- `FAILURE_BUCKETS` (inspect_pr_checks.py:27). -/
def FAILURE_BUCKETS : List String := ["fail"]

/-- `FAILURE_MARKERS` (inspect_pr_checks.py:29). -/
def FAILURE_MARKERS : List String :=
  ["error", "fail", "failed", "traceback", "exception", "assert", "panic",
   "fatal", "timeout", "segmentation fault"]

/-- `PENDING_LOG_MARKERS` (inspect_pr_checks.py:46). -/
def PENDING_LOG_MARKERS : List String :=
  ["still in progress", "log will be available when it is complete"]

/-- `DEFAULT_MAX_COMMENT_BODY_CHARS` (inspect_pr_checks.py:45). -/
def DEFAULT_MAX_COMMENT_BODY_CHARS : Nat := 400

/-- The fields of a check record that `is_failing` consults.  The source
reads them with `check.get(...)`, so every field may be absent; fields not
consulted by the classifier (name, URLs, timestamps) are omitted. -/
structure CheckRecord where
  conclusion : Option String
  state : Option String
  status : Option String
  bucket : Option String
deriving DecidableEq

/-- `is_failing` (inspect_pr_checks.py:543): the tri-field OR over
conclusion, state-falling-back-to-status, and bucket. -/
def is_failing (c : CheckRecord) : Bool :=
  if normalize_field c.conclusion ∈ FAILURE_CONCLUSIONS then true
  else if normalize_field (pyOrStr c.state c.status) ∈ FAILURE_STATES then true
  else decide (normalize_field c.bucket ∈ FAILURE_BUCKETS)

/-- `is_log_pending_message` (inspect_pr_checks.py:756). -/
def is_log_pending_message (message : String) : Bool :=
  PENDING_LOG_MARKERS.any fun marker => containsSub (strToLower message) marker

/-- Python truthiness of the optional job-id string (`and job_id` in the
source): `None` and `""` are falsy. -/
def jobIdTruthy : Option String → Bool
  | none => false
  | some s => s != ""

/-- `fetch_check_log` (inspect_pr_checks.py:649) as a pure function of the
outcomes of the two fetch tiers.  `runLog`/`runErr` is the pair
`fetch_run_log` returned (the source guarantees `runErr = ""` exactly on
success); `jobLog`/`jobErr` is the pair `fetch_job_log` would return,
consulted only in the branch where the source actually calls it.  The
result mirrors the source triple `(text, error, status)`. -/
def fetch_check_log (runLog runErr : String) (jobId : Option String)
    (jobLog jobErr : String) : String × String × String :=
  if runErr = "" then (runLog, "", "ok")
  else if is_log_pending_message runErr && jobIdTruthy jobId then
    if jobLog != "" then (jobLog, "", "ok")
    else if jobErr != "" && is_log_pending_message jobErr then ("", jobErr, "pending")
    else if jobErr != "" then ("", jobErr, "error")
    else ("", runErr, "pending")
  else if is_log_pending_message runErr then ("", runErr, "pending")
  else ("", runErr, "error")

/-- The log-retrieval state machine exactly as claim C2 words it: ok on
run-level success; error on a non-pending run-level failure regardless of
job id; pending on a pending run-level failure without a job id; with a
job id, ok on non-empty job-level success, pending on a pending job-level
failure, error on any other job-level failure, and pending with the
original run-level reason on an empty job-level success body.  To be
compared with `fetch_check_log`. -/
def logFetchSpecC2 (runLog runErr : String) (jobId : Option String)
    (jobLog jobErr : String) : String × String × String :=
  if runErr = "" then (runLog, "", "ok")
  else if !is_log_pending_message runErr then ("", runErr, "error")
  else if !jobIdTruthy jobId then ("", runErr, "pending")
  else if jobLog != "" then (jobLog, "", "ok")
  else if jobErr != "" && is_log_pending_message jobErr then ("", jobErr, "pending")
  else if jobErr != "" then ("", jobErr, "error")
  else ("", runErr, "pending")

/-- The PR merge-metadata record fetched by `fetch_merge_status`
(inspect_pr_checks.py:237); every field may be absent. -/
structure MergeStatus where
  mergeable : Option String
  mergeStateStatus : Option String
  url : Option String
  baseRefName : Option String
  headRefName : Option String
deriving DecidableEq

/-- The finding dictionaries built by `build_merge_conflict_result` and
`build_update_branch_result`. -/
structure MergeFinding where
  name : String
  status : String
  detailsUrl : String
  mergeable : Option String
  mergeStateStatus : Option String
  baseRefName : Option String
  headRefName : Option String
  note : String
deriving DecidableEq

/-- The ASCII single-quote character used inside the update-branch note. -/
def squote : String := ⟨[Char.ofNat 39]⟩

/-- `build_merge_conflict_result` (inspect_pr_checks.py:260).  The `none`
input models both `merge_status is None` and the falsy empty dict. -/
def build_merge_conflict_result : Option MergeStatus → Option MergeFinding
  | none => none
  | some ms =>
    if normalize_field ms.mergeable ≠ "conflicting" ∧
        normalize_field ms.mergeStateStatus ≠ "dirty" then none
    else some
      { name := "Merge conflicts", status := "conflict", detailsUrl := optStr ms.url,
        mergeable := ms.mergeable, mergeStateStatus := ms.mergeStateStatus,
        baseRefName := ms.baseRefName, headRefName := ms.headRefName,
        note := "PR has merge conflicts and cannot be merged as-is." }

/-- `build_update_branch_result` (inspect_pr_checks.py:281). -/
def build_update_branch_result : Option MergeStatus → Option MergeFinding
  | none => none
  | some ms =>
    if normalize_field ms.mergeStateStatus ≠ "behind" then none
    else
      let baseRef := optStr ms.baseRefName
      let headRef := optStr ms.headRefName
      let baseLabel := if baseRef ≠ "" then " " ++ squote ++ baseRef ++ squote else ""
      let headLabel := if headRef ≠ "" then " " ++ squote ++ headRef ++ squote else ""
      some
        { name := "Update branch required", status := "behind", detailsUrl := optStr ms.url,
          mergeable := ms.mergeable, mergeStateStatus := ms.mergeStateStatus,
          baseRefName := ms.baseRefName, headRefName := ms.headRefName,
          note := "PR branch" ++ headLabel ++ " is behind base" ++ baseLabel ++
            "; update the branch before re-running checks." }

/-- Splitting a character list at every newline, keeping empty segments
(the shape of Python `s.split(chr(10))`: always one more part than
separators). -/
def splitOnNl : List Char → List (List Char)
  | [] => [[]]
  | c :: cs =>
    let parts := splitOnNl cs
    if c = '\n' then [] :: parts
    else
      match parts with
      | [] => [[c]]
      | p :: ps => (c :: p) :: ps

/-- Python `str.splitlines()` for newline-delimited text: the empty string
yields no lines, and a trailing newline does not produce a final empty
line. -/
def pySplitlines (s : String) : List String :=
  if s.data = [] then []
  else
    let parts := splitOnNl s.data
    let parts := if s.data.getLast? = some '\n' then parts.dropLast else parts
    parts.map fun l => String.mk l

/-- Whether a log line (lowercased) contains one of `FAILURE_MARKERS`;
this is the per-line test of `find_failure_index`
(inspect_pr_checks.py:782). -/
def lineHasMarker (line : String) : Bool :=
  FAILURE_MARKERS.any fun marker => containsSub (strToLower line) marker

/-- The downward scan in `find_failure_index` (inspect_pr_checks.py:782):
`find_failure_index_aux lines n` inspects indices n-1, n-2, ..., 0 and
returns the first (hence largest) index whose line matches. -/
def find_failure_index_aux (lines : List String) : Nat → Option Nat
  | 0 => none
  | k + 1 =>
    if lineHasMarker (lines.getD k "") then some k
    else find_failure_index_aux lines k

/-- `find_failure_index` (inspect_pr_checks.py:782). -/
def find_failure_index (lines : List String) : Option Nat :=
  find_failure_index_aux lines lines.length

/-- Python `xs[-n:]` for `n ≥ 0`: note `xs[-0:]` is `xs[0:]`, the whole
list. -/
def pyTakeNeg (n : Nat) (xs : List String) : List String :=
  if n = 0 then xs else xs.drop (xs.length - n)

/-- The last `n` entries of a list (all of them when `n ≥ length`). -/
def takeRightN (n : Nat) (xs : List String) : List String :=
  xs.drop (xs.length - n)

/-- Python `sep.join(xs)`. -/
def joinWith (sep : String) : List String → String
  | [] => ""
  | [x] => x
  | x :: y :: xs => x ++ sep ++ joinWith sep (y :: xs)

/-- The list of lines computed by `extract_failure_snippet`
(inspect_pr_checks.py:765) just before the final join: empty log gives no
lines; no marker gives the Python tail slice `lines[-max_lines:]`; a
marker at `i` gives the slice `lines[max(0, i-context) : min(len, i+context)]`,
re-sliced to `window[-max_lines:]` when it is longer than `max_lines`. -/
def extract_failure_snippet_window (logText : String) (maxLines context : Nat) : List String :=
  let lines := pySplitlines logText
  if lines.isEmpty then []
  else
    match find_failure_index lines with
    | none => pyTakeNeg maxLines lines
    | some i =>
      let start := i - context
      let e := min lines.length (i + context)
      let window := (lines.take e).drop start
      if maxLines < window.length then pyTakeNeg maxLines window else window

/-- `extract_failure_snippet` (inspect_pr_checks.py:765). -/
def extract_failure_snippet (logText : String) (maxLines context : Nat) : String :=
  joinWith "\n" (extract_failure_snippet_window logText maxLines context)

/-- The clamping `max(1, args.max_lines)` / `max(1, args.context)` that
`main` (inspect_pr_checks.py:152) applies before calling `analyze_check`. -/
def clamp_at_least_one (n : Int) : Int := max 1 n

/-- Splitting a character list at every whitespace character, keeping
empty segments. -/
def splitOnWs : List Char → List (List Char)
  | [] => [[]]
  | c :: cs =>
    let parts := splitOnWs cs
    if c.isWhitespace then [] :: parts
    else
      match parts with
      | [] => [[c]]
      | p :: ps => (c :: p) :: ps

/-- Python `" ".join(text.split())`: collapse whitespace runs to single
spaces and strip the ends. -/
def collapse_ws (s : String) : String :=
  joinWith " " (((splitOnWs s.data).filter fun w => !w.isEmpty).map fun l => String.mk l)

/-- `compact_text` (inspect_pr_checks.py:722). -/
def compact_text (text : String) (maxChars : Nat) : String :=
  if text = "" then ""
  else
    let cleaned := collapse_ws text
    if cleaned.length ≤ maxChars then cleaned
    else pyRstrip (strTake cleaned (maxChars - 3)) ++ "..."

/-- A raw review as fetched from the reviews endpoint
(inspect_pr_checks.py:369): the fields `analyze_reviews` reads.  The
nested `review["user"]["login"]` access is collapsed into `author`;
display-only fields (URLs) are omitted. -/
structure RawReview where
  author : Option String
  state : Option String
  submitted_at : Option String
  body : Option String
deriving DecidableEq

/-- A raw inline-review or issue comment (inspect_pr_checks.py:404, 421):
the fields the decision logic reads.  Display-only fields (path, line,
created timestamp, URLs) are omitted; they are copied verbatim into the
output and never consulted. -/
structure RawComment where
  author : Option String
  body : Option String
deriving DecidableEq

/-- A surviving review entry as built at inspect_pr_checks.py:378:
`state` is stored uppercased, `submittedAt` and `body` default to `""`. -/
structure ReviewItem where
  author : String
  state : String
  submittedAt : String
  body : String
deriving DecidableEq

/-- A surviving comment entry (inspect_pr_checks.py:410, 428). -/
structure CommentItem where
  author : String
  body : String
deriving DecidableEq

/-- The review filter of `analyze_reviews` (inspect_pr_checks.py:369):
drop entries with empty author, entries authored by the PR author
(case-insensitive), and entries with empty or pending state. -/
def review_items_of (authorKey : String) (reviews : List RawReview) : List ReviewItem :=
  reviews.filterMap fun r =>
    let login := optStr r.author
    if login = "" then none
    else if strToLower login = authorKey then none
    else
      let st := normalize_field r.state
      if st = "" then none
      else if st = "pending" then none
      else some
        { author := login, state := strToUpper st,
          submittedAt := optStr r.submitted_at,
          body := compact_text (optStr r.body) DEFAULT_MAX_COMMENT_BODY_CHARS }

/-- The comment filter of `analyze_reviews` (inspect_pr_checks.py:404,
421): drop entries with empty author or authored by the PR author. -/
def comment_items_of (authorKey : String) (comments : List RawComment) : List CommentItem :=
  comments.filterMap fun c =>
    let login := optStr c.author
    if login = "" then none
    else if strToLower login = authorKey then none
    else some { author := login,
                body := compact_text (optStr c.body) DEFAULT_MAX_COMMENT_BODY_CHARS }

/-- Lookup in the insertion-ordered association list modelling the Python
dict `latest_by_reviewer`. -/
def lookupKey (k : String) : List (String × ReviewItem) → Option ReviewItem
  | [] => none
  | (k₀, v) :: rest => if k₀ = k then some v else lookupKey k rest

/-- `d[k] = v` on the insertion-ordered association list: replace in
place if the key exists, else append. -/
def setKey (k : String) (v : ReviewItem) : List (String × ReviewItem) → List (String × ReviewItem)
  | [] => [(k, v)]
  | (k₀, v₀) :: rest => if k₀ = k then (k, v) :: rest else (k₀, v₀) :: setKey k v rest

/-- Python string `<` (lexicographic by code point), stated on the
underlying character lists so that it evaluates by kernel reduction; it
agrees with the `<` of the `String` linear order (`pyStrLt_iff`). -/
def pyStrLt (a b : String) : Prop := a.data < b.data

instance (a b : String) : Decidable (pyStrLt a b) :=
  inferInstanceAs (Decidable (a.data < b.data))

/-- One iteration of the `latest_by_reviewer` loop
(inspect_pr_checks.py:388): key by lowercased author, skip empty keys,
keep the entry with the strictly greater `submittedAt` string (first
occurrence wins ties). -/
def latest_step (m : List (String × ReviewItem)) (item : ReviewItem) :
    List (String × ReviewItem) :=
  let key := strToLower item.author
  if key = "" then m
  else
    match lookupKey key m with
    | none => setKey key item m
    | some cur => if pyStrLt cur.submittedAt item.submittedAt then setKey key item m else m

/-- The `latest_by_reviewer` dict after the loop
(inspect_pr_checks.py:388). -/
def latest_by_reviewer (items : List ReviewItem) : List (String × ReviewItem) :=
  items.foldl latest_step []

/-- Stable insertion for the descending sort by `submittedAt`
(inspect_pr_checks.py:397): an entry goes in front of the first entry
with a key not above its own, so equal keys keep their original order,
matching Python sorted(..., reverse=True). -/
def insert_desc (a : ReviewItem) : List ReviewItem → List ReviewItem
  | [] => [a]
  | b :: rest =>
    if ¬ pyStrLt a.submittedAt b.submittedAt then a :: b :: rest
    else b :: insert_desc a rest

/-- Stable descending sort by `submittedAt`. -/
def sort_desc (l : List ReviewItem) : List ReviewItem := l.foldr insert_desc []

/-- `latest_reviews` (inspect_pr_checks.py:397): the deduplicated
latest-per-reviewer entries, sorted by submission timestamp descending. -/
def latest_reviews_of (items : List ReviewItem) : List ReviewItem :=
  sort_desc ((latest_by_reviewer items).map Prod.snd)

/-- The decision precedence (inspect_pr_checks.py:437). -/
def decision_of (latest : List ReviewItem) : String :=
  if latest.any fun it => normalize_field (some it.state) == "changes_requested" then
    "CHANGES_REQUESTED"
  else if latest.any fun it => normalize_field (some it.state) == "approved" then "APPROVED"
  else if latest.any fun it => normalize_field (some it.state) == "commented" then "COMMENTED"
  else if !latest.isEmpty then "REVIEWED"
  else "PENDING"

/-- `summary_comments` (inspect_pr_checks.py:448): some latest review is
a comment with non-empty body. -/
def summary_comments_of (latest : List ReviewItem) : Bool :=
  latest.any fun it => normalize_field (some it.state) == "commented" && it.body != ""

/-- `action_required` (inspect_pr_checks.py:452). -/
def action_required_of (decision : String) (latest : List ReviewItem)
    (rcs ics : List CommentItem) : Bool :=
  decision == "CHANGES_REQUESTED" || summary_comments_of latest ||
    !rcs.isEmpty || !ics.isEmpty

/-- The review finding dictionary built at inspect_pr_checks.py:459; the
counts and display-only fields (URL, error/note strings) are omitted. -/
structure ReviewFinding where
  name : String
  status : String
  reviewDecision : String
  reviewActionRequired : Bool
  latestReviews : List ReviewItem
  reviewComments : List CommentItem
  issueComments : List CommentItem
deriving DecidableEq

/-- The pure core of `analyze_reviews` (inspect_pr_checks.py:366-495),
given the PR author login and the three fetched collections.  The source
returns `None` only when the repository slug cannot be resolved and a
degraded error finding when the PR metadata fetch fails (both pure I/O
failures outside this model); on every path through the analysis itself
it builds and returns the finding unconditionally, and `main`
(inspect_pr_checks.py:141) appends any non-None finding, since the dict
is non-empty and hence truthy.  The second component is the
`review_requires_response` flag `main` uses for blocking status. -/
def analyze_reviews_core (prAuthor : Option String) (reviews : List RawReview)
    (reviewComments issueComments : List RawComment) (maxReviewComments : Nat) :
    Option ReviewFinding × Bool :=
  let authorKey := strToLower (optStr prAuthor)
  let items := review_items_of authorKey reviews
  let latest := latest_reviews_of items
  let rcs := comment_items_of authorKey reviewComments
  let ics := comment_items_of authorKey issueComments
  let decision := decision_of latest
  let actionRequired := action_required_of decision latest rcs ics
  (some
    { name := "Reviewer comments", status := "review",
      reviewDecision := decision, reviewActionRequired := actionRequired,
      latestReviews := latest.take maxReviewComments,
      reviewComments := rcs.take maxReviewComments,
      issueComments := ics.take maxReviewComments },
   actionRequired)

/-- The invariant carried through the `latest_by_reviewer` fold: the
empty key is never present; every stored entry is a processed item with
that (lowercased-author) key whose timestamp dominates all processed
items of the same key; and every processed item with a non-empty key has
an entry. -/
def LatestInv (processed : List ReviewItem) (m : List (String × ReviewItem)) : Prop :=
  lookupKey "" m = none ∧
  (∀ k v, lookupKey k m = some v →
    v ∈ processed ∧ strToLower v.author = k ∧
      ∀ it ∈ processed, strToLower it.author = k → it.submittedAt ≤ v.submittedAt) ∧
  (∀ it ∈ processed, strToLower it.author ≠ "" →
    lookupKey (strToLower it.author) m ≠ none)

/-- Claim C1: for every check record, `is_failing` is true iff the
normalized (whitespace-stripped, lowercased) conclusion is in
`FAILURE_CONCLUSIONS`, or the normalized state (falling back to status
when state is absent or empty) is in `FAILURE_STATES`, or the normalized
bucket equals `fail`; in particular an all-absent record yields false. -/
theorem c1_is_failing_characterization (c : CheckRecord) :
    (is_failing c = true ↔
      normalize_field c.conclusion ∈ FAILURE_CONCLUSIONS ∨
        normalize_field (pyOrStr c.state c.status) ∈ FAILURE_STATES ∨
        normalize_field c.bucket = "fail") ∧
    is_failing ⟨none, none, none, none⟩ = false := by
  refine ⟨?_, by decide⟩
  unfold is_failing
  split_ifs with h1 h2
  · simp [h1]
  · simp [h1, h2]
  · simp only [decide_eq_true_eq, FAILURE_BUCKETS, List.mem_singleton]
    tauto

/-- Claim C2: the log-retrieval fallback of `fetch_check_log` agrees, on
every outcome of the two fetch tiers and every optional job id, with the
state machine as the claim words it (`logFetchSpecC2`): ok on run-level
success; error on a non-pending run-level failure regardless of job id;
pending without a job id; and with a job id, ok on non-empty job-level
success, pending on a pending job-level failure, error on any other
job-level failure, pending with the original run-level reason on an
empty job-level success body. -/
theorem c2_fetch_check_log_state_machine (runLog runErr : String)
    (jobId : Option String) (jobLog jobErr : String) :
    fetch_check_log runLog runErr jobId jobLog jobErr =
      logFetchSpecC2 runLog runErr jobId jobLog jobErr := by
  unfold fetch_check_log logFetchSpecC2
  by_cases h1 : runErr = ""
  · simp [h1]
  · cases hp : is_log_pending_message runErr <;>
      cases hj : jobIdTruthy jobId <;>
        simp [h1, hp, hj]

/-- Counterexample to claim C3 as stated: with `mergeable = conflicting`
and `mergeStateStatus = behind`, the source emits BOTH the merge-conflict
finding and the behind-branch finding, while the claim allows the
behind-branch finding only when no merge-conflict finding is emitted. -/
theorem c3_counterexample_conflicting_and_behind :
    (build_merge_conflict_result
        (some ⟨some "conflicting", some "behind", none, none, none⟩)).isSome = true ∧
    (build_update_branch_result
        (some ⟨some "conflicting", some "behind", none, none, none⟩)).isSome = true := by
  decide

/-- Claim C3 amended: the merge-conflict finding is emitted iff
`mergeable` normalizes to `conflicting` or `mergeStateStatus` normalizes
to `dirty`; the behind-branch finding is emitted iff `mergeStateStatus`
normalizes to `behind`, INDEPENDENTLY of the conflict finding (both can
be emitted together); a missing merge-status record emits nothing, and
absent fields normalize to the empty string, so no input can fail. -/
theorem c3_amended_merge_state_findings (ms : MergeStatus) :
    ((build_merge_conflict_result (some ms)).isSome = true ↔
      normalize_field ms.mergeable = "conflicting" ∨
        normalize_field ms.mergeStateStatus = "dirty") ∧
    ((build_update_branch_result (some ms)).isSome = true ↔
      normalize_field ms.mergeStateStatus = "behind") ∧
    build_merge_conflict_result none = none ∧
    build_update_branch_result none = none := by
  refine ⟨?_, ?_, rfl, rfl⟩
  · simp only [build_merge_conflict_result]
    split_ifs with h
    · simp only [Option.isSome_none, Bool.false_eq_true, false_iff]
      tauto
    · rw [not_and_or, not_not, not_not] at h
      simp [h]
  · simp only [build_update_branch_result]
    by_cases h : normalize_field ms.mergeStateStatus = "behind"
    · simp [h]
    · simp [h]

/-- Counterexample to claim C9 as stated: with no surviving reviews, no
surviving inline comments and no surviving issue comments, the source
still builds and returns the review finding (decision PENDING, no action
required), while the claim says no review finding is emitted. -/
theorem c9_counterexample_empty_feedback_emits :
    (analyze_reviews_core (some "alice") [] [] [] 50).1.isSome = true ∧
    ((analyze_reviews_core (some "alice") [] [] [] 50).1.map fun f => f.reviewDecision) =
      some "PENDING" ∧
    (analyze_reviews_core (some "alice") [] [] [] 50).2 = false := by
  decide

/-- Claim C9 amended: the review analysis ALWAYS produces a finding, even
when no surviving feedback exists (it then carries decision PENDING and
actionRequired false), and the emitted finding is blocking iff its
`reviewActionRequired` flag is true: the flag recorded in the finding is
exactly the blocking bit returned to `main`. -/
theorem c9_amended_always_emitted_blocking_iff (prAuthor : Option String)
    (reviews : List RawReview) (rcs ics : List RawComment) (maxRC : Nat) :
    ((analyze_reviews_core prAuthor reviews rcs ics maxRC).1.map
        fun f => f.reviewActionRequired) =
      some (analyze_reviews_core prAuthor reviews rcs ics maxRC).2 := rfl

theorem lineHasMarker_empty : lineHasMarker "" = false := by decide

theorem find_failure_index_aux_none (lines : List String)
    (h : ∀ line ∈ lines, lineHasMarker line = false) :
    ∀ n, find_failure_index_aux lines n = none := by
  intro n
  induction n with
  | zero => rfl
  | succ k ih =>
    have hcond : lineHasMarker (lines.getD k "") = false := by
      by_cases hk : k < lines.length
      · have hg : lines.getD k "" = lines[k] := by
          rw [List.getD_eq_getElem?_getD, List.getElem?_eq_getElem hk]
          rfl
        rw [hg]
        exact h _ (List.getElem_mem hk)
      · have hg : lines.getD k "" = "" := by
          rw [List.getD_eq_getElem?_getD, List.getElem?_eq_none (Nat.le_of_not_lt hk)]
          rfl
        rw [hg]
        exact lineHasMarker_empty
    unfold find_failure_index_aux
    simp only [hcond, Bool.false_eq_true, if_false]
    exact ih

theorem find_failure_index_aux_last (lines : List String) (i : Nat)
    (hm : lineHasMarker (lines.getD i "") = true) :
    ∀ n, i < n →
      (∀ j, i < j → j < n → lineHasMarker (lines.getD j "") = false) →
      find_failure_index_aux lines n = some i := by
  intro n
  induction n with
  | zero => exact fun hin _ => absurd hin (Nat.not_lt_zero i)
  | succ k ih =>
    intro hin hno
    have hik : i ≤ k := Nat.lt_succ_iff.mp hin
    unfold find_failure_index_aux
    by_cases hk : lineHasMarker (lines.getD k "") = true
    · have heq : i = k := by
        rcases Nat.lt_or_ge i k with hlt | hge
        · exact absurd hk (by rw [hno k hlt (Nat.lt_succ_self k)]; simp)
        · omega
      rw [if_pos hk, heq]
    · have hlt : i < k := by
        rcases Nat.lt_or_ge i k with h | h
        · exact h
        · exfalso
          have heq : i = k := by omega
          exact hk (heq ▸ hm)
      rw [if_neg hk]
      exact ih hlt fun j hj1 hj2 => hno j hj1 (Nat.lt_succ_of_lt hj2)

theorem find_failure_index_last (lines : List String) (i : Nat)
    (hi : i < lines.length)
    (hm : lineHasMarker (lines.getD i "") = true)
    (hno : ∀ j, i < j → j < lines.length → lineHasMarker (lines.getD j "") = false) :
    find_failure_index lines = some i :=
  find_failure_index_aux_last lines i hm lines.length hi hno

/-- Counterexample to claim C4 as stated: for the marker-free log
`"hello"` and `maxLines = 0`, `extract_failure_snippet` returns the whole
log (Python `lines[-0:]` is the whole list), not the empty snippet the
claim demands. -/
theorem c4_counterexample_maxlines_zero :
    find_failure_index (pySplitlines "hello") = none ∧
    extract_failure_snippet "hello" 0 30 = "hello" := by
  decide

/-- Claim C4 amended: for a log with no failure-marker line,
`extract_failure_snippet` returns exactly the last `maxLines` lines for
every `maxLines ≥ 1`; for `maxLines = 0` it returns ALL lines of the log
(Python slice `lines[-0:]`), not the empty snippet. -/
theorem c4_amended_tail_no_marker (log : String) (maxLines context : Nat)
    (hnm : ∀ line ∈ pySplitlines log, lineHasMarker line = false) :
    (1 ≤ maxLines →
      extract_failure_snippet log maxLines context =
        joinWith "\n" (takeRightN maxLines (pySplitlines log))) ∧
    extract_failure_snippet log 0 context = joinWith "\n" (pySplitlines log) := by
  have hfind : find_failure_index (pySplitlines log) = none :=
    find_failure_index_aux_none (pySplitlines log) hnm _
  constructor
  · intro hmax
    simp only [extract_failure_snippet, extract_failure_snippet_window, hfind]
    cases hemp : (pySplitlines log).isEmpty
    · have hpt : pyTakeNeg maxLines (pySplitlines log) =
          takeRightN maxLines (pySplitlines log) := by
        unfold pyTakeNeg takeRightN
        rw [if_neg (by omega)]
      simp [hpt]
    · have h0 : pySplitlines log = [] := List.isEmpty_iff.mp hemp
      simp [h0, takeRightN]
  · simp only [extract_failure_snippet, extract_failure_snippet_window, hfind]
    cases hemp : (pySplitlines log).isEmpty
    · simp [pyTakeNeg]
    · have h0 : pySplitlines log = [] := List.isEmpty_iff.mp hemp
      simp [h0]

/-- Witness for `c4_amended_tail_no_marker` at the marker-free log
`"hi"` with `maxLines = 1`. -/
theorem c4_amended_tail_no_marker_witness :
    extract_failure_snippet "hi" 1 30 =
      joinWith "\n" (takeRightN 1 (pySplitlines "hi")) :=
  (c4_amended_tail_no_marker "hi" 1 30 (by decide)).1 (by decide)

/-- Counterexample to claim C5 as stated: for the one-line log `"error"`
(marker at the last line), `context = 1` and `maxLines = 0`, the clipped
window is the full marker line — Python `window[-0:]` is the whole
window — so the snippet has 1 line, exceeding `maxLines = 0`, and is not
the last-0-lines (empty) window the claim demands. -/
theorem c5_counterexample_maxlines_zero_marker :
    extract_failure_snippet "error" 0 1 = "error" ∧
    (extract_failure_snippet_window "error" 0 1).length = 1 := by
  decide

/-- Claim C5 amended: for a log whose last failure-marker line is at
index `i` and for `maxLines ≥ 1`, `extract_failure_snippet_window`
returns the window `[i - context, i + context)` clipped to the log
bounds, reduced to its last `maxLines` lines when the clipped window is
longer, and hence never has more than `maxLines` lines for any
`context`.  (For `maxLines = 0` the full clipped window is returned
instead, see the counterexample.) -/
theorem c5_amended_window_cap (log : String) (i maxLines context : Nat)
    (hi : i < (pySplitlines log).length)
    (hm : lineHasMarker ((pySplitlines log).getD i "") = true)
    (hlast : ∀ j, i < j → j < (pySplitlines log).length →
        lineHasMarker ((pySplitlines log).getD j "") = false)
    (hmax : 1 ≤ maxLines) :
    extract_failure_snippet_window log maxLines context =
      (if maxLines <
          (((pySplitlines log).take (min (pySplitlines log).length (i + context))).drop
              (i - context)).length then
        takeRightN maxLines
          (((pySplitlines log).take (min (pySplitlines log).length (i + context))).drop
            (i - context))
      else
        ((pySplitlines log).take (min (pySplitlines log).length (i + context))).drop
          (i - context)) ∧
    (extract_failure_snippet_window log maxLines context).length ≤ maxLines := by
  have hfind : find_failure_index (pySplitlines log) = some i :=
    find_failure_index_last _ i hi hm hlast
  have hemp : (pySplitlines log).isEmpty = false := by
    cases h : (pySplitlines log).isEmpty
    · rfl
    · exact absurd hi (by simp [List.isEmpty_iff.mp h])
  have hpt : pyTakeNeg maxLines
        (((pySplitlines log).take (min (pySplitlines log).length (i + context))).drop
          (i - context)) =
      takeRightN maxLines
        (((pySplitlines log).take (min (pySplitlines log).length (i + context))).drop
          (i - context)) := by
    unfold pyTakeNeg takeRightN
    rw [if_neg (by omega)]
  have key : extract_failure_snippet_window log maxLines context =
      (if maxLines <
          (((pySplitlines log).take (min (pySplitlines log).length (i + context))).drop
              (i - context)).length then
        takeRightN maxLines
          (((pySplitlines log).take (min (pySplitlines log).length (i + context))).drop
            (i - context))
      else
        ((pySplitlines log).take (min (pySplitlines log).length (i + context))).drop
          (i - context)) := by
    simp only [extract_failure_snippet_window, hfind, hemp, Bool.false_eq_true, if_false]
    rw [hpt]
  refine ⟨key, ?_⟩
  rw [key]
  split_ifs with h
  · unfold takeRightN
    rw [List.length_drop]
    omega
  · omega

/-- Witness for `c5_amended_window_cap` at the log `"ok\nerror"` whose
marker sits on the last line, with `maxLines = 1` and `context = 1`. -/
theorem c5_amended_window_cap_witness :
    extract_failure_snippet_window "ok\nerror" 1 1 =
      (if 1 <
          (((pySplitlines "ok\nerror").take
              (min (pySplitlines "ok\nerror").length (1 + 1))).drop (1 - 1)).length then
        takeRightN 1
          (((pySplitlines "ok\nerror").take
            (min (pySplitlines "ok\nerror").length (1 + 1))).drop (1 - 1))
      else
        ((pySplitlines "ok\nerror").take
          (min (pySplitlines "ok\nerror").length (1 + 1))).drop (1 - 1)) ∧
    (extract_failure_snippet_window "ok\nerror" 1 1).length ≤ 1 :=
  c5_amended_window_cap "ok\nerror" 1 1 1 (by decide) (by decide)
    (by
      intro j h1 h2
      have hl : (pySplitlines "ok\nerror").length = 2 := by decide
      rw [hl] at h2
      exact absurd h2 (by omega))
    (by decide)

/-- Claim C10: for a log that contains a failure-marker line, calling
`extract_failure_snippet` with `context = 0` yields the empty snippet —
the half-open window `[i, i)` excludes even the marker line itself (so
the marker appears only when `context ≥ 1`) — and the orchestrator
protects against this by clamping both `context` and `max_lines` to at
least 1 (`clamp_at_least_one`) before calling the extractor. -/
theorem c10_context_zero_empty_and_clamp (log : String) (maxLines i : Nat)
    (hfind : find_failure_index (pySplitlines log) = some i) :
    extract_failure_snippet_window log maxLines 0 = [] ∧
    extract_failure_snippet log maxLines 0 = "" ∧
    ∀ n : Int, 1 ≤ clamp_at_least_one n := by
  have hdrop : ((pySplitlines log).take (min (pySplitlines log).length (i + 0))).drop
      (i - 0) = [] := by
    apply List.drop_eq_nil_of_le
    rw [List.length_take]
    have h1 : min (pySplitlines log).length (i + 0) ≤ i := by omega
    omega
  have hwin : extract_failure_snippet_window log maxLines 0 = [] := by
    simp only [extract_failure_snippet_window, hfind, hdrop]
    cases hemp : (pySplitlines log).isEmpty
    · simp
    · simp
  refine ⟨hwin, ?_, fun n => le_max_left 1 n⟩
  unfold extract_failure_snippet
  rw [hwin]
  rfl

/-- Witness for `c10_context_zero_empty_and_clamp` at the one-line log
`"error"`, whose marker index is 0. -/
theorem c10_context_zero_empty_and_clamp_witness :
    extract_failure_snippet_window "error" 5 0 = [] ∧
    extract_failure_snippet "error" 5 0 = "" ∧
    ∀ n : Int, 1 ≤ clamp_at_least_one n :=
  c10_context_zero_empty_and_clamp "error" 5 0 (by decide)

theorem pyRstrip_length_le (s : String) : (pyRstrip s).length ≤ s.length := by
  unfold pyRstrip
  show (s.data.reverse.dropWhile Char.isWhitespace).reverse.length ≤ s.length
  rw [List.length_reverse]
  calc (s.data.reverse.dropWhile Char.isWhitespace).length
      ≤ s.data.reverse.length := (List.dropWhile_sublist _).length_le
    _ = s.data.length := List.length_reverse _
    _ = s.length := rfl

theorem strTake_length_le (s : String) (n : Nat) : (strTake s n).length ≤ n := by
  unfold strTake
  show (s.data.take n).length ≤ n
  rw [List.length_take]
  omega

/-- Counterexample to claim C8 as stated: for the body `"a bcdefg"`
(collapsed length 8) and budget 5, the source truncates to `"a "`,
right-strips the trailing space, and appends the marker, producing
`"a..."` of length 4 — not a string of exactly 5 characters. -/
theorem c8_counterexample_rstrip_shortfall :
    5 < (collapse_ws "a bcdefg").length ∧
    compact_text "a bcdefg" 5 = "a..." ∧
    (compact_text "a bcdefg" 5).length = 4 := by
  decide

/-- Claim C8 amended: compacting a body whose whitespace-collapsed form
fits the budget returns that collapsed form unchanged; compacting one
whose collapsed form exceeds a budget of at least 3 returns a string of
AT MOST budget characters (right-stripping before the marker can make it
shorter than the budget) that ends in the ellipsis marker `...`. -/
theorem c8_amended_compact_text (text : String) (budget : Nat) :
    ((collapse_ws text).length ≤ budget → compact_text text budget = collapse_ws text) ∧
    (3 ≤ budget → budget < (collapse_ws text).length →
      (compact_text text budget).length ≤ budget ∧
        ∃ t : String, compact_text text budget = t ++ "...") := by
  constructor
  · intro hle
    unfold compact_text
    by_cases h0 : text = ""
    · rw [if_pos h0, h0]
      decide
    · rw [if_neg h0, if_pos hle]
  · intro h3 hgt
    have h0 : text ≠ "" := by
      intro h
      rw [h] at hgt
      have hz : (collapse_ws "").length = 0 := by decide
      omega
    unfold compact_text
    rw [if_neg h0, if_neg (by omega)]
    constructor
    · rw [String.length_append]
      have h1 : (pyRstrip (strTake (collapse_ws text) (budget - 3))).length ≤ budget - 3 :=
        le_trans (pyRstrip_length_le _) (strTake_length_le _ _)
      have h2 : ("..." : String).length = 3 := by decide
      omega
    · exact ⟨_, rfl⟩

/-- Witness for `c8_amended_compact_text`: the short body `"hi"` with
budget 10 round-trips, and the long body `"a bcdefgh"` with budget 5 is
truncated to at most 5 characters ending in the marker. -/
theorem c8_amended_compact_text_witness :
    compact_text "hi" 10 = collapse_ws "hi" ∧
    ((compact_text "a bcdefgh" 5).length ≤ 5 ∧
      ∃ t : String, compact_text "a bcdefgh" 5 = t ++ "...") :=
  ⟨(c8_amended_compact_text "hi" 10).1 (by decide),
   (c8_amended_compact_text "a bcdefgh" 5).2 (by decide) (by decide)⟩

theorem review_items_of_all_self (key : String) (reviews : List RawReview)
    (h : ∀ r ∈ reviews, strToLower (optStr r.author) = key) :
    review_items_of key reviews = [] := by
  unfold review_items_of
  rw [List.filterMap_eq_nil_iff]
  intro r hr
  by_cases hl : optStr r.author = ""
  · simp [hl]
  · simp [hl, h r hr]

theorem comment_items_of_all_self (key : String) (comments : List RawComment)
    (h : ∀ c ∈ comments, strToLower (optStr c.author) = key) :
    comment_items_of key comments = [] := by
  unfold comment_items_of
  rw [List.filterMap_eq_nil_iff]
  intro c hc
  by_cases hl : optStr c.author = ""
  · simp [hl]
  · simp [hl, h c hc]

/-- Claim C7: reviews and comments whose author matches the PR author
(case-insensitively) are excluded from all analysis: when every entry is
authored by the PR author, the decision is PENDING and actionRequired is
false. -/
theorem c7_self_authored_excluded (prAuthor : Option String)
    (reviews : List RawReview) (rcs ics : List RawComment) (maxRC : Nat)
    (hrev : ∀ r ∈ reviews, strToLower (optStr r.author) = strToLower (optStr prAuthor))
    (hrc : ∀ c ∈ rcs, strToLower (optStr c.author) = strToLower (optStr prAuthor))
    (hic : ∀ c ∈ ics, strToLower (optStr c.author) = strToLower (optStr prAuthor)) :
    ((analyze_reviews_core prAuthor reviews rcs ics maxRC).1.map
        fun f => f.reviewDecision) = some "PENDING" ∧
    (analyze_reviews_core prAuthor reviews rcs ics maxRC).2 = false := by
  have hitems := review_items_of_all_self _ reviews hrev
  have hrcs := comment_items_of_all_self _ rcs hrc
  have hics := comment_items_of_all_self _ ics hic
  have hdec : decision_of (latest_reviews_of []) = "PENDING" := by decide
  have hact : action_required_of "PENDING" (latest_reviews_of []) [] [] = false := by decide
  simp only [analyze_reviews_core, hitems, hrcs, hics, hdec, hact]
  exact ⟨rfl, trivial⟩

/-- Witness for `c7_self_authored_excluded`: a PR author `Alice` with one
self-review, one self inline comment and one self issue comment (in
varying letter cases) yields decision PENDING and no action required. -/
theorem c7_self_authored_excluded_witness :
    ((analyze_reviews_core (some "Alice")
        [⟨some "alice", some "changes_requested", some "2024-01-01", some "fix"⟩]
        [⟨some "ALICE", some "inline"⟩] [⟨some "aLiCe", some "issue"⟩] 50).1.map
          fun f => f.reviewDecision) = some "PENDING" ∧
    (analyze_reviews_core (some "Alice")
        [⟨some "alice", some "changes_requested", some "2024-01-01", some "fix"⟩]
        [⟨some "ALICE", some "inline"⟩] [⟨some "aLiCe", some "issue"⟩] 50).2 = false :=
  c7_self_authored_excluded (some "Alice") _ _ _ 50 (by decide) (by decide) (by decide)


theorem lookupKey_setKey_self (k : String) (v : ReviewItem)
    (m : List (String × ReviewItem)) : lookupKey k (setKey k v m) = some v := by
  induction m with
  | nil => simp [setKey, lookupKey]
  | cons hd tl ih =>
    obtain ⟨k₀, v₀⟩ := hd
    by_cases h : k₀ = k
    · simp [setKey, lookupKey, h]
    · simp [setKey, lookupKey, h, ih]

theorem lookupKey_setKey_ne (k k₀ : String) (v : ReviewItem)
    (m : List (String × ReviewItem)) (h : k ≠ k₀) :
    lookupKey k (setKey k₀ v m) = lookupKey k m := by
  induction m with
  | nil => simp [setKey, lookupKey, Ne.symm h]
  | cons hd tl ih =>
    obtain ⟨k₁, v₁⟩ := hd
    by_cases h₁ : k₁ = k₀
    · subst h₁
      simp [setKey, lookupKey, Ne.symm h]
    · simp [setKey, lookupKey, h₁, ih]

theorem latest_step_none (m : List (String × ReviewItem)) (item : ReviewItem)
    (hkey : strToLower item.author ≠ "")
    (hcur : lookupKey (strToLower item.author) m = none) :
    latest_step m item = setKey (strToLower item.author) item m := by
  unfold latest_step
  rw [if_neg hkey, hcur]

theorem pyStrLt_iff (a b : String) : pyStrLt a b ↔ a < b :=
  String.lt_iff_toList_lt.symm

theorem latest_step_some (m : List (String × ReviewItem)) (item cur : ReviewItem)
    (hkey : strToLower item.author ≠ "")
    (hcur : lookupKey (strToLower item.author) m = some cur) :
    latest_step m item =
      if pyStrLt cur.submittedAt item.submittedAt then
        setKey (strToLower item.author) item m
      else m := by
  unfold latest_step
  rw [if_neg hkey, hcur]

theorem latest_step_inv (processed : List ReviewItem)
    (m : List (String × ReviewItem)) (item : ReviewItem)
    (h : LatestInv processed m) :
    LatestInv (processed ++ [item]) (latest_step m item) := by
  obtain ⟨h0, h1, h2⟩ := h
  by_cases hkey : strToLower item.author = ""
  · have hstep : latest_step m item = m := by
      unfold latest_step
      rw [if_pos hkey]
    rw [hstep]
    refine ⟨h0, ?_, ?_⟩
    · intro k v hkv
      obtain ⟨hv1, hv2, hv3⟩ := h1 k v hkv
      refine ⟨List.mem_append_left _ hv1, hv2, ?_⟩
      intro it hit hitk
      rcases List.mem_append.mp hit with hold | hnew
      · exact hv3 it hold hitk
      · rw [List.mem_singleton.mp hnew] at hitk
        rw [hkey] at hitk
        rw [← hitk] at hkv
        exact absurd hkv (by rw [h0]; exact Option.noConfusion)
    · intro it hit hne
      rcases List.mem_append.mp hit with hold | hnew
      · exact h2 it hold hne
      · rw [List.mem_singleton.mp hnew] at hne
        exact absurd hkey hne
  · cases hcur : lookupKey (strToLower item.author) m with
    | none =>
      rw [latest_step_none m item hkey hcur]
      refine ⟨?_, ?_, ?_⟩
      · rw [lookupKey_setKey_ne _ _ _ _ fun hh => hkey hh.symm]
        exact h0
      · intro k v hkv
        by_cases hk : k = strToLower item.author
        · subst hk
          rw [lookupKey_setKey_self] at hkv
          obtain rfl : item = v := Option.some.inj hkv
          refine ⟨List.mem_append_right _ (List.mem_singleton.mpr rfl), rfl, ?_⟩
          intro it hit hitk
          rcases List.mem_append.mp hit with hold | hnew
          · have := h2 it hold (by rw [hitk]; exact hkey)
            rw [hitk] at this
            exact absurd hcur this
          · rw [List.mem_singleton.mp hnew]
        · rw [lookupKey_setKey_ne _ _ _ _ hk] at hkv
          obtain ⟨hv1, hv2, hv3⟩ := h1 k v hkv
          refine ⟨List.mem_append_left _ hv1, hv2, ?_⟩
          intro it hit hitk
          rcases List.mem_append.mp hit with hold | hnew
          · exact hv3 it hold hitk
          · rw [List.mem_singleton.mp hnew] at hitk
            exact absurd hitk.symm hk
      · intro it hit hne
        rcases List.mem_append.mp hit with hold | hnew
        · by_cases hk : strToLower it.author = strToLower item.author
          · rw [hk, lookupKey_setKey_self]
            exact Option.noConfusion
          · rw [lookupKey_setKey_ne _ _ _ _ hk]
            exact h2 it hold hne
        · rw [List.mem_singleton.mp hnew, lookupKey_setKey_self]
          exact Option.noConfusion
    | some cur =>
      rw [latest_step_some m item cur hkey hcur]
      by_cases hlt : pyStrLt cur.submittedAt item.submittedAt
      · rw [if_pos hlt]
        refine ⟨?_, ?_, ?_⟩
        · rw [lookupKey_setKey_ne _ _ _ _ fun hh => hkey hh.symm]
          exact h0
        · intro k v hkv
          by_cases hk : k = strToLower item.author
          · subst hk
            rw [lookupKey_setKey_self] at hkv
            obtain rfl : item = v := Option.some.inj hkv
            refine ⟨List.mem_append_right _ (List.mem_singleton.mpr rfl), rfl, ?_⟩
            intro it hit hitk
            rcases List.mem_append.mp hit with hold | hnew
            · have hcurb := h1 _ cur hcur
              exact le_trans (hcurb.2.2 it hold hitk)
                (le_of_lt ((pyStrLt_iff _ _).mp hlt))
            · rw [List.mem_singleton.mp hnew]
          · rw [lookupKey_setKey_ne _ _ _ _ hk] at hkv
            obtain ⟨hv1, hv2, hv3⟩ := h1 k v hkv
            refine ⟨List.mem_append_left _ hv1, hv2, ?_⟩
            intro it hit hitk
            rcases List.mem_append.mp hit with hold | hnew
            · exact hv3 it hold hitk
            · rw [List.mem_singleton.mp hnew] at hitk
              exact absurd hitk.symm hk
        · intro it hit hne
          rcases List.mem_append.mp hit with hold | hnew
          · by_cases hk : strToLower it.author = strToLower item.author
            · rw [hk, lookupKey_setKey_self]
              exact Option.noConfusion
            · rw [lookupKey_setKey_ne _ _ _ _ hk]
              exact h2 it hold hne
          · rw [List.mem_singleton.mp hnew, lookupKey_setKey_self]
            exact Option.noConfusion
      · rw [if_neg hlt]
        refine ⟨h0, ?_, ?_⟩
        · intro k v hkv
          obtain ⟨hv1, hv2, hv3⟩ := h1 k v hkv
          refine ⟨List.mem_append_left _ hv1, hv2, ?_⟩
          intro it hit hitk
          rcases List.mem_append.mp hit with hold | hnew
          · exact hv3 it hold hitk
          · rw [List.mem_singleton.mp hnew] at hitk ⊢
            rw [← hitk, hcur] at hkv
            obtain rfl : cur = v := Option.some.inj hkv
            exact le_of_not_lt fun hc => hlt ((pyStrLt_iff _ _).mpr hc)
        · intro it hit hne
          rcases List.mem_append.mp hit with hold | hnew
          · exact h2 it hold hne
          · rw [List.mem_singleton.mp hnew]
            rw [hcur]
            exact Option.noConfusion

theorem latest_fold_inv (rest : List ReviewItem) :
    ∀ (processed : List ReviewItem) (m : List (String × ReviewItem)),
      LatestInv processed m → LatestInv (processed ++ rest) (rest.foldl latest_step m) := by
  induction rest with
  | nil =>
    intro processed m h
    simpa using h
  | cons it rest ih =>
    intro processed m h
    have h' := latest_step_inv processed m it h
    have h'' := ih (processed ++ [it]) (latest_step m it) h'
    simpa [List.append_assoc] using h''

theorem latest_by_reviewer_inv (items : List ReviewItem) :
    LatestInv items (latest_by_reviewer items) := by
  have h0 : LatestInv [] [] := by
    refine ⟨rfl, ?_, ?_⟩
    · intro k v hkv
      exact absurd hkv (by simp [lookupKey])
    · intro it hit
      exact absurd hit (List.not_mem_nil it)
  have h := latest_fold_inv items [] [] h0
  simpa [latest_by_reviewer] using h

theorem mem_insert_desc (a x : ReviewItem) (l : List ReviewItem) :
    x ∈ insert_desc a l ↔ x = a ∨ x ∈ l := by
  induction l with
  | nil => simp [insert_desc]
  | cons b rest ih =>
    by_cases h : pyStrLt a.submittedAt b.submittedAt
    · simp only [insert_desc, if_neg (not_not_intro h), List.mem_cons, ih]
      tauto
    · simp only [insert_desc, if_pos h, List.mem_cons]

theorem mem_sort_desc (x : ReviewItem) (l : List ReviewItem) :
    x ∈ sort_desc l ↔ x ∈ l := by
  induction l with
  | nil => simp [sort_desc]
  | cons a rest ih =>
    have hfold : sort_desc (a :: rest) = insert_desc a (sort_desc rest) := rfl
    rw [hfold, mem_insert_desc, ih, List.mem_cons]

theorem any_sort_desc (l : List ReviewItem) (p : ReviewItem → Bool) :
    (sort_desc l).any p = l.any p := by
  rw [← Bool.coe_iff_coe]
  simp only [List.any_eq_true]
  constructor
  · rintro ⟨x, hx, hp⟩
    exact ⟨x, (mem_sort_desc x l).mp hx, hp⟩
  · rintro ⟨x, hx, hp⟩
    exact ⟨x, (mem_sort_desc x l).mpr hx, hp⟩

theorem sort_desc_eq_nil (l : List ReviewItem) : sort_desc l = [] ↔ l = [] := by
  constructor
  · intro h
    cases l with
    | nil => rfl
    | cons a rest =>
      have ha : a ∈ sort_desc (a :: rest) :=
        (mem_sort_desc a (a :: rest)).mpr (List.mem_cons_self a rest)
      rw [h] at ha
      exact absurd ha (List.not_mem_nil a)
  · intro h
    rw [h]
    rfl

/-- Claim C6: `latest_by_reviewer` keeps, for each reviewer key
(lowercased author), only the review with the (lexicographically)
greatest submission-timestamp string among that reviewer's reviews, and
every reviewer with a non-empty key is represented; the decision is then
computed over the deduplicated latest-per-reviewer set by the precedence
changes_requested, approved, commented, non-empty, pending; in
particular the claim example of one reviewer A with an earlier approval
and a later changes_requested yields CHANGES_REQUESTED. -/
theorem c6_latest_review_dedup_precedence (items : List ReviewItem) :
    (∀ k v, lookupKey k (latest_by_reviewer items) = some v →
        v ∈ items ∧ strToLower v.author = k ∧
          ∀ it ∈ items, strToLower it.author = k → it.submittedAt ≤ v.submittedAt) ∧
    (∀ it ∈ items, strToLower it.author ≠ "" →
        lookupKey (strToLower it.author) (latest_by_reviewer items) ≠ none) ∧
    (decision_of (latest_reviews_of items) =
      if ∃ it ∈ (latest_by_reviewer items).map Prod.snd,
          normalize_field (some it.state) = "changes_requested" then "CHANGES_REQUESTED"
      else if ∃ it ∈ (latest_by_reviewer items).map Prod.snd,
          normalize_field (some it.state) = "approved" then "APPROVED"
      else if ∃ it ∈ (latest_by_reviewer items).map Prod.snd,
          normalize_field (some it.state) = "commented" then "COMMENTED"
      else if (latest_by_reviewer items).map Prod.snd = [] then "PENDING"
      else "REVIEWED") ∧
    ((analyze_reviews_core (some "owner")
        [⟨some "A", some "approved", some "2024-01-01T00:00:00Z", none⟩,
         ⟨some "A", some "changes_requested", some "2024-01-02T00:00:00Z", none⟩]
        [] [] 50).1.map fun f => f.reviewDecision) = some "CHANGES_REQUESTED" := by
  have hinv := latest_by_reviewer_inv items
  refine ⟨hinv.2.1, hinv.2.2, ?_, by decide⟩
  by_cases hL : (latest_by_reviewer items).map Prod.snd = []
  · simp only [latest_reviews_of, hL]
    decide
  · simp only [latest_reviews_of, decision_of, any_sort_desc, List.any_eq_true, beq_iff_eq]
    have hne : (sort_desc ((latest_by_reviewer items).map Prod.snd)).isEmpty = false := by
      cases hh : (sort_desc ((latest_by_reviewer items).map Prod.snd)).isEmpty
      · rfl
      · exact absurd ((sort_desc_eq_nil _).mp (List.isEmpty_iff.mp hh)) hL
    simp [hne, hL]

/-- Witness for `c6_latest_review_dedup_precedence`: for reviewer `A`
with an approval at an earlier timestamp and a changes-request at a
later one, the kept entry under key `"a"` is the later
changes-requested review, it is one of the input reviews, and its
timestamp dominates both. -/
theorem c6_latest_review_dedup_precedence_witness :
    (⟨"A", "CHANGES_REQUESTED", "2024-01-02T00:00:00Z", ""⟩ : ReviewItem) ∈
        ([⟨"A", "APPROVED", "2024-01-01T00:00:00Z", ""⟩,
          ⟨"A", "CHANGES_REQUESTED", "2024-01-02T00:00:00Z", ""⟩] : List ReviewItem) ∧
      strToLower
          (ReviewItem.author ⟨"A", "CHANGES_REQUESTED", "2024-01-02T00:00:00Z", ""⟩) =
        "a" ∧
      ∀ it ∈ ([⟨"A", "APPROVED", "2024-01-01T00:00:00Z", ""⟩,
            ⟨"A", "CHANGES_REQUESTED", "2024-01-02T00:00:00Z", ""⟩] : List ReviewItem),
        strToLower it.author = "a" →
          it.submittedAt ≤
            ReviewItem.submittedAt ⟨"A", "CHANGES_REQUESTED", "2024-01-02T00:00:00Z", ""⟩ :=
  (c6_latest_review_dedup_precedence
      [⟨"A", "APPROVED", "2024-01-01T00:00:00Z", ""⟩,
       ⟨"A", "CHANGES_REQUESTED", "2024-01-02T00:00:00Z", ""⟩]).1 "a"
    ⟨"A", "CHANGES_REQUESTED", "2024-01-02T00:00:00Z", ""⟩ (by decide)
